import Mathlib

/-!
Verification of the video-editor core: EDL (edit decision list) store,
playback store, timeline visual-position math, export preconditions,
mask lookup for compositing, and undo-history snapshot equality.

Times are modelled as exact rationals (seconds); ids (uuid strings in the
source) are modelled as naturals; the constants 0.1 and 0.001 from the
source are the rationals 1/10 and 1/1000.
-/

namespace VideoEditor

/-- `TrimmedRegions` from `types/index.ts`. -/
structure TrimmedRegions where
  startSeconds : ℚ
  endSeconds : ℚ
deriving DecidableEq, Repr

/-- `TimelineClip` from `types/index.ts`. -/
structure TimelineClip where
  id : ℕ
  sourceId : ℕ
  sourceInPointSeconds : ℚ
  sourceOutPointSeconds : ℚ
  timelinePositionSeconds : ℚ
  trimmed : TrimmedRegions
deriving DecidableEq, Repr

/-- `VideoSource` from `types/index.ts` (the fields the core logic reads;
`widthInPixels`/`heightInPixels` are optional in the source, hence `Option`). -/
structure VideoSource where
  id : ℕ
  durationInSeconds : ℚ
  widthInPixels : Option ℕ
  heightInPixels : Option ℕ
  frameRate : ℚ
deriving DecidableEq, Repr

/-- `getClipDuration` from `clipSlice.ts`. -/
def getClipDuration (clip : TimelineClip) : ℚ :=
  clip.sourceOutPointSeconds - clip.sourceInPointSeconds

/-- The loop body of `recalculatePositions` from `clipSlice.ts`: the running
`currentPosition` accumulator is the first argument. -/
def recalcFrom (pos : ℚ) : List TimelineClip → List TimelineClip
  | [] => []
  | clip :: rest =>
      { clip with timelinePositionSeconds := pos } :: recalcFrom (pos + getClipDuration clip) rest

/-- `recalculatePositions` from `clipSlice.ts` (`currentPosition` starts at 0). -/
def recalculatePositions (clips : List TimelineClip) : List TimelineClip :=
  recalcFrom 0 clips

/-- `calculateTotalDuration` from `clipSlice.ts` (a `reduce` with initial value 0). -/
def calculateTotalDuration (clips : List TimelineClip) : ℚ :=
  clips.foldl (fun total clip => total + getClipDuration clip) 0

/-- `getSourceTimeForPlayhead` from `clipSlice.ts`. -/
def getSourceTimeForPlayhead (clip : TimelineClip) (currentTime : ℚ) : Option ℚ :=
  let clipDuration := getClipDuration clip
  let clipEnd := clip.timelinePositionSeconds + clipDuration
  if currentTime < clip.timelinePositionSeconds ∨ currentTime > clipEnd then
    none
  else
    some (clip.sourceInPointSeconds + (currentTime - clip.timelinePositionSeconds))

/-- `setCurrentTime` from the playback store (`part_003`): clamps below at 0. -/
def setCurrentTime (time : ℚ) : ℚ := max 0 time

/-- `adjustPlayheadForTrim` from `clipSlice.ts`, as a pure function from the
playback store's `currentTime` to its new value (the source reads and writes
the playback store; `setCurrentTime` is its 0-clamp). -/
def adjustPlayheadForTrim (clipId : ℕ) (oldClips newClips : List TimelineClip)
    (currentTime : ℚ) : ℚ :=
  match oldClips.find? (fun c => c.id == clipId), newClips.find? (fun c => c.id == clipId) with
  | some oldClip, some newClip =>
    match getSourceTimeForPlayhead oldClip currentTime with
    | none => currentTime
    | some sourceTimeBeforeTrim =>
      if newClip.sourceInPointSeconds ≤ sourceTimeBeforeTrim ∧
         sourceTimeBeforeTrim ≤ newClip.sourceOutPointSeconds then
        let newTimelineTime :=
          newClip.timelinePositionSeconds +
            (sourceTimeBeforeTrim - newClip.sourceInPointSeconds)
        if |newTimelineTime - currentTime| > 1/1000 then
          setCurrentTime newTimelineTime
        else
          currentTime
      else if sourceTimeBeforeTrim < newClip.sourceInPointSeconds then
        setCurrentTime newClip.timelinePositionSeconds
      else
        setCurrentTime (newClip.timelinePositionSeconds + getClipDuration newClip)
  | _, _ => currentTime

/-- `clampTrimStart` from `clipSlice.ts`. -/
def clampTrimStart (clip : TimelineClip) (newSourceInPointSeconds : ℚ) : ℚ :=
  max 0 (min newSourceInPointSeconds (clip.sourceOutPointSeconds - 1/10))

/-- `clampTrimEnd` from `clipSlice.ts`. -/
def clampTrimEnd (clip : TimelineClip) (newSourceOutPointSeconds : ℚ)
    (sourceDuration : ℚ) : ℚ :=
  min sourceDuration (max newSourceOutPointSeconds (clip.sourceInPointSeconds + 1/10))

/-- The per-clip body of `trimClipStart`'s `map` in `clipSlice.ts`. -/
def trimStartClip (clip : TimelineClip) (newSourceInPointSeconds : ℚ) : TimelineClip :=
  let clampedInPoint := clampTrimStart clip newSourceInPointSeconds
  let minAllowedInPoint := clip.sourceInPointSeconds - clip.trimmed.startSeconds
  let finalInPoint := max minAllowedInPoint clampedInPoint
  let delta := finalInPoint - clip.sourceInPointSeconds
  if delta = 0 then clip
  else
    { clip with
        sourceInPointSeconds := finalInPoint,
        trimmed := { clip.trimmed with
          startSeconds := max 0 (clip.trimmed.startSeconds + delta) } }

/-- The per-clip body of `trimClipEnd`'s `map` in `clipSlice.ts`, given the
clip's source duration (the source looks it up and leaves the clip unchanged
when the source is unknown). -/
def trimEndClip (clip : TimelineClip) (newSourceOutPointSeconds : ℚ)
    (sourceDuration : ℚ) : TimelineClip :=
  let clampedOutPoint := clampTrimEnd clip newSourceOutPointSeconds sourceDuration
  let maxAllowedOutPoint := clip.sourceOutPointSeconds + clip.trimmed.endSeconds
  let finalOutPoint := min maxAllowedOutPoint clampedOutPoint
  let delta := clip.sourceOutPointSeconds - finalOutPoint
  if delta = 0 then clip
  else
    { clip with
        sourceOutPointSeconds := finalOutPoint,
        trimmed := { clip.trimmed with
          endSeconds := max 0 (clip.trimmed.endSeconds + delta) } }

/-- `createSplitClips` from `clipSlice.ts`; the fresh id produced by
`generateId()` for the right-hand clip is passed in as `newId`. -/
def createSplitClips (newId : ℕ) (clip : TimelineClip)
    (atTimelineTimeSeconds : ℚ) : Option (TimelineClip × TimelineClip) :=
  let clipDuration := getClipDuration clip
  let clipEnd := clip.timelinePositionSeconds + clipDuration
  if atTimelineTimeSeconds ≤ clip.timelinePositionSeconds ∨ atTimelineTimeSeconds ≥ clipEnd then
    none
  else
    let splitOffset := atTimelineTimeSeconds - clip.timelinePositionSeconds
    let sourceSplitTime := clip.sourceInPointSeconds + splitOffset
    some
      ({ clip with
          sourceOutPointSeconds := sourceSplitTime,
          trimmed := { startSeconds := clip.trimmed.startSeconds, endSeconds := 0 } },
       { clip with
          id := newId,
          sourceInPointSeconds := sourceSplitTime,
          timelinePositionSeconds := atTimelineTimeSeconds,
          trimmed := { startSeconds := 0, endSeconds := clip.trimmed.endSeconds } })

/-- The mutable state of the clip slice plus the playback store's
`currentTime`, which the trim operations re-anchor through
`adjustPlayheadForTrim`. -/
structure EditorState where
  clips : List TimelineClip
  selectedClipId : Option ℕ
  currentTime : ℚ
deriving DecidableEq, Repr

/-- `addClip` from `clipSlice.ts` (no-op when the source id is unknown); the
fresh clip id from `generateId()` is passed in as `newId`. -/
def addClip (getSource : ℕ → Option VideoSource) (newId : ℕ)
    (s : EditorState) (sourceId : ℕ) : EditorState :=
  match getSource sourceId with
  | none => s
  | some source =>
    let newClip : TimelineClip :=
      { id := newId, sourceId := sourceId, sourceInPointSeconds := 0,
        sourceOutPointSeconds := source.durationInSeconds,
        timelinePositionSeconds := 0,
        trimmed := { startSeconds := 0, endSeconds := 0 } }
    { s with clips := recalculatePositions (s.clips ++ [newClip]) }

/-- `removeClip` from `clipSlice.ts`. -/
def removeClip (s : EditorState) (clipId : ℕ) : EditorState :=
  { s with
      clips := recalculatePositions (s.clips.filter (fun c => c.id ≠ clipId)),
      selectedClipId := if s.selectedClipId = some clipId then none else s.selectedClipId }

/-- `reorderClips` from `clipSlice.ts`: both indices are found on the original
list; the moved clip is removed at `oldIndex` and re-inserted at `newIndex`
(the two `splice` calls). -/
def reorderClips (s : EditorState) (activeId overId : ℕ) : EditorState :=
  if activeId = overId then s
  else
    match s.clips.findIdx? (fun c => c.id == activeId),
          s.clips.findIdx? (fun c => c.id == overId) with
    | some oldIndex, some newIndex =>
      match s.clips[oldIndex]? with
      | some movedClip =>
        { s with
            clips := recalculatePositions
              (List.insertIdx newIndex movedClip (s.clips.eraseIdx oldIndex)) }
      | none => s
    | _, _ => s

/-- `trimClipStart` from `clipSlice.ts`: maps the clamped trim over the clip
list, recalculates positions, and re-anchors the playhead. -/
def trimClipStart (s : EditorState) (clipId : ℕ)
    (newSourceInPointSeconds : ℚ) : EditorState :=
  let oldClips := s.clips
  let updatedClips := recalculatePositions
    (s.clips.map (fun clip =>
      if clip.id ≠ clipId then clip else trimStartClip clip newSourceInPointSeconds))
  { s with
      clips := updatedClips,
      currentTime := adjustPlayheadForTrim clipId oldClips updatedClips s.currentTime }

/-- `trimClipEnd` from `clipSlice.ts` (the clip is left unchanged when the
source is unknown, per the `if (!source) return clip` guard). -/
def trimClipEnd (getSource : ℕ → Option VideoSource) (s : EditorState) (clipId : ℕ)
    (newSourceOutPointSeconds : ℚ) : EditorState :=
  let oldClips := s.clips
  let updatedClips := recalculatePositions
    (s.clips.map (fun clip =>
      if clip.id ≠ clipId then clip
      else
        match getSource clip.sourceId with
        | none => clip
        | some source => trimEndClip clip newSourceOutPointSeconds source.durationInSeconds))
  { s with
      clips := updatedClips,
      currentTime := adjustPlayheadForTrim clipId oldClips updatedClips s.currentTime }

/-- `splitClip` from `clipSlice.ts`; `newId` is the `generateId()` value used
for the right-hand clip. -/
def splitClip (newId : ℕ) (s : EditorState) (clipId : ℕ)
    (atTimelineTimeSeconds : ℚ) : EditorState :=
  match s.clips.find? (fun c => c.id == clipId) with
  | none => s
  | some clip =>
    match createSplitClips newId clip atTimelineTimeSeconds with
    | none => s
    | some (firstClip, secondClip) =>
      { s with
          clips := recalculatePositions
            (s.clips.flatMap (fun c => if c.id = clipId then [firstClip, secondClip] else [c])) }

/-- `clearClips` from `clipSlice.ts`. -/
def clearClips (s : EditorState) : EditorState :=
  { s with clips := [], selectedClipId := none }

/-- One EDL mutation, carrying the environment-produced data the source reads
on the side: fresh `generateId()` values. -/
inductive EdlOp where
  | add (sourceId newId : ℕ)
  | remove (clipId : ℕ)
  | reorder (activeId overId : ℕ)
  | trimStart (clipId : ℕ) (newSourceInPointSeconds : ℚ)
  | trimEnd (clipId : ℕ) (newSourceOutPointSeconds : ℚ)
  | split (clipId : ℕ) (atTimelineTimeSeconds : ℚ) (newId : ℕ)
  | clear
deriving DecidableEq, Repr

/-- Dispatch one mutation of the clip slice. -/
def applyOp (getSource : ℕ → Option VideoSource) (s : EditorState) : EdlOp → EditorState
  | .add sourceId newId => addClip getSource newId s sourceId
  | .remove clipId => removeClip s clipId
  | .reorder activeId overId => reorderClips s activeId overId
  | .trimStart clipId v => trimClipStart s clipId v
  | .trimEnd clipId v => trimClipEnd getSource s clipId v
  | .split clipId t newId => splitClip newId s clipId t
  | .clear => clearClips s

/-- Apply a sequence of EDL mutations in order. -/
def applyOps (getSource : ℕ → Option VideoSource) (s : EditorState)
    (ops : List EdlOp) : EditorState :=
  ops.foldl (applyOp getSource) s

/-- The store's initial state: empty clip list, nothing selected, playhead at 0. -/
def initialState : EditorState :=
  { clips := [], selectedClipId := none, currentTime := 0 }

/-- The contiguity invariant exactly as the spec states it:
`clip[i].timelinePosition == sum(duration(clip[0..i-1]))`. -/
def Contiguous (clips : List TimelineClip) : Prop :=
  ∀ i, (h : i < clips.length) →
    (clips.get ⟨i, h⟩).timelinePositionSeconds = (((clips.take i).map getClipDuration).sum)

/-- The contiguity invariant re-stated structurally: the clips occupy the
timeline back-to-back starting at `p`. Equivalent to `Contiguous` at `p = 0`;
this recursive form is what the round-trip proof walks. -/
def ContiguousFrom : ℚ → List TimelineClip → Prop
  | _, [] => True
  | p, clip :: rest =>
      clip.timelinePositionSeconds = p ∧
        ContiguousFrom (p + getClipDuration clip) rest

/-! ### Playback store (`part_003`) -/

/-- The playback store's state. -/
structure PlaybackState where
  currentTime : ℚ
  isPlaying : Bool
deriving DecidableEq, Repr

/-- `seek` from the playback store (`part_003`): `Math.max(0, time)` and pause. -/
def seek (_s : PlaybackState) (time : ℚ) : PlaybackState :=
  { currentTime := max 0 time, isPlaying := false }

/-- `seekRelative` from the playback store (`part_003`). -/
def seekRelative (s : PlaybackState) (delta : ℚ) : PlaybackState :=
  { currentTime := max 0 (s.currentTime + delta), isPlaying := false }

/-! ### Timeline visual-position math (`part_007`) -/

/-- The `for` loop of `calculatePlayheadVisualPosition` (`part_007`), with the
`visualOffset` accumulator explicit; each exit multiplies by
`pixelsPerSecond` exactly as the source's `return` statements do. -/
def playheadVisualGo (t pps voff : ℚ) : List TimelineClip → ℚ
  | [] => (t + voff) * pps
  | clip :: rest =>
      let clipDuration := getClipDuration clip
      let clipEnd := clip.timelinePositionSeconds + clipDuration
      if t ≥ clipEnd then
        if rest = [] then (clipEnd + (voff + clip.trimmed.startSeconds)) * pps
        else playheadVisualGo t pps (voff + clip.trimmed.startSeconds + clip.trimmed.endSeconds) rest
      else if t ≥ clip.timelinePositionSeconds then
        (t + (voff + clip.trimmed.startSeconds)) * pps
      else
        (t + voff) * pps

/-- `calculatePlayheadVisualPosition` from `part_007`. -/
def calculatePlayheadVisualPosition (timelineTimeSeconds : ℚ)
    (clips : List TimelineClip) (pixelsPerSecond : ℚ) : ℚ :=
  if clips = [] then timelineTimeSeconds * pixelsPerSecond
  else playheadVisualGo timelineTimeSeconds pixelsPerSecond 0 clips

/-- The `for` loop of `calculateTimelineTimeFromVisualPosition` (`part_007`).
`orig` is the whole clip list the source closes over (its final fallback reads
`clips[clips.length - 1]`); `accV` is `accumulatedVisualTime` and `accT` is
`accumulatedTrimOffset`. -/
def timelineTimeGo (vs : ℚ) (orig : List TimelineClip) (accV accT : ℚ) :
    List TimelineClip → ℚ
  | [] =>
      match orig.getLast? with
      | some lastClip => lastClip.timelinePositionSeconds + getClipDuration lastClip
      | none => vs - accT
  | clip :: rest =>
      let clipDuration := getClipDuration clip
      let clipVisualStart := accV + clip.trimmed.startSeconds
      let clipVisualEnd := clipVisualStart + clipDuration
      let clipVisualFullEnd := clipVisualEnd + clip.trimmed.endSeconds
      if vs < clipVisualStart then clip.timelinePositionSeconds
      else if vs < clipVisualEnd then
        clip.timelinePositionSeconds + (vs - clipVisualStart)
      else if vs < clipVisualFullEnd then
        clip.timelinePositionSeconds + clipDuration
      else
        timelineTimeGo vs orig clipVisualFullEnd
          (accT + clip.trimmed.startSeconds + clip.trimmed.endSeconds) rest

/-- `calculateTimelineTimeFromVisualPosition` from `part_007`. -/
def calculateTimelineTimeFromVisualPosition (visualPixels : ℚ)
    (clips : List TimelineClip) (pixelsPerSecond : ℚ) : ℚ :=
  if clips = [] ∨ pixelsPerSecond = 0 then visualPixels / pixelsPerSecond
  else timelineTimeGo (visualPixels / pixelsPerSecond) clips 0 0 clips

/-! ### Masks, color regions and the export compositor's mask lookup
(`types/index.ts`, `clipProcessor.ts`, `videoExporter.ts`) -/

/-- `MaskData` from `types/index.ts`: a byte-per-pixel 0/1 buffer. -/
structure MaskData where
  data : List ℕ
  width : ℕ
  height : ℕ
deriving DecidableEq, Repr

/-- `FrameMask` from `types/index.ts`. -/
structure FrameMask where
  frameTimeSeconds : ℚ
  mask : MaskData
deriving DecidableEq, Repr

/-- `ColorRegion` from `types/index.ts`. -/
structure ColorRegion where
  id : ℕ
  clipId : ℕ
  frameMasks : List FrameMask
  isProcessing : Bool
  totalFrames : ℕ
  processedFrames : ℕ
deriving DecidableEq, Repr

/-- The `for` loop of `getMaskForTime` (`clipProcessor.ts`): running closest
mask, replaced only on strictly smaller time difference. -/
def closestMaskGo (timeSeconds : ℚ) (closest : FrameMask) : List FrameMask → FrameMask
  | [] => closest
  | fm :: rest =>
      if |timeSeconds - fm.frameTimeSeconds| < |timeSeconds - closest.frameTimeSeconds| then
        closestMaskGo timeSeconds fm rest
      else
        closestMaskGo timeSeconds closest rest

/-- `getMaskForTime` from `clipProcessor.ts`. -/
def getMaskForTime (frameMasks : List FrameMask) (timeSeconds : ℚ) : Option FrameMask :=
  match frameMasks with
  | [] => none
  | [fm] => some fm
  | fm0 :: fm1 :: rest => some (closestMaskGo timeSeconds fm0 (fm0 :: fm1 :: rest))

/-- `getMaskForClip` from `videoExporter.ts`: walks the clip's regions in list
order and returns the first nearest-in-time mask found. -/
def getMaskForClip : List ColorRegion → ℚ → Option MaskData
  | [], _ => none
  | region :: rest, sourceTime =>
      if region.frameMasks ≠ [] then
        match getMaskForTime region.frameMasks sourceTime with
        | some frameMask => some frameMask.mask
        | none => getMaskForClip rest sourceTime
      else getMaskForClip rest sourceTime

/-- What `renderWithMask` (`videoExporter.ts`) does with the frame. -/
inductive RenderAction where
  | withMask (m : MaskData)
  | passthrough
deriving DecidableEq, Repr

/-- `renderWithMask` from `videoExporter.ts`, reduced to which pipeline branch
runs: color-isolation with a mask, or passthrough. -/
def renderWithMask (regions : List ColorRegion) (sourceTime : ℚ) : RenderAction :=
  match getMaskForClip regions sourceTime with
  | some mask => .withMask mask
  | none => .passthrough

/-- Modelled from the spec: the claimed combination rule — "Mask combination
for N simultaneous regions is bitwise OR over pixels". No such combinator
exists in the source; this definition exists only to compare the claim
against `getMaskForClip`. -/
def maskOr (a b : MaskData) : MaskData :=
  { data := List.zipWith (fun x y => x ||| y) a.data b.data,
    width := a.width, height := a.height }

/-! ### Export preconditions (`videoExporter.ts`) -/

/-- The two synchronous precondition errors of `exportVideo`. -/
inductive ExportError where
  | noClips
  | noValidSource
deriving DecidableEq, Repr

/-- The loop body of `getOutputResolution` (`videoExporter.ts`): a source
contributes to the running maxima only when it resolves and both dimensions
are truthy (present and non-zero). -/
def resolutionStep (getSource : ℕ → Option VideoSource) (acc : ℕ × ℕ)
    (clip : TimelineClip) : ℕ × ℕ :=
  match getSource clip.sourceId with
  | some source =>
      match source.widthInPixels, source.heightInPixels with
      | some w, some h => if w ≠ 0 ∧ h ≠ 0 then (max acc.1 w, max acc.2 h) else acc
      | _, _ => acc
  | none => acc

/-- `getOutputResolution` from `videoExporter.ts`: maxima over sources, each
dimension rounded down to an even number (`Math.floor(x / 2) * 2`). -/
def getOutputResolution (clips : List TimelineClip)
    (getSource : ℕ → Option VideoSource) : ℕ × ℕ :=
  let m := clips.foldl (resolutionStep getSource) (0, 0)
  (m.1 / 2 * 2, m.2 / 2 * 2)

/-- The loop body of `getMaxFrameRate` (`videoExporter.ts`): `source?.frameRate`
is truthy when the source resolves and the rate is non-zero. -/
def frameRateStep (getSource : ℕ → Option VideoSource) (acc : ℚ)
    (clip : TimelineClip) : ℚ :=
  match getSource clip.sourceId with
  | some source => if source.frameRate ≠ 0 then max acc source.frameRate else acc
  | none => acc

/-- `getMaxFrameRate` from `videoExporter.ts` (fallback `DEFAULT_FRAME_RATE = 30`). -/
def getMaxFrameRate (clips : List TimelineClip)
    (getSource : ℕ → Option VideoSource) : ℚ :=
  let maxFrameRate := clips.foldl (frameRateStep getSource) 0
  if maxFrameRate > 0 then maxFrameRate else 30

/-- The synchronous prefix of `exportVideo` (`videoExporter.ts`) up to — but
not including — `setupExportResources`: `validateClips`, then geometry and
frame rate, then `validateResolution`. `Except.ok` carries the values handed
to resource setup; both errors therefore occur before any decoder, renderer
or recorder resource is acquired. -/
def exportVideoPre (clips : List TimelineClip)
    (getSource : ℕ → Option VideoSource) : Except ExportError (ℕ × ℕ × ℚ) :=
  if clips.length = 0 then .error .noClips
  else
    let r := getOutputResolution clips getSource
    let frameRate := getMaxFrameRate clips getSource
    if r.1 = 0 ∨ r.2 = 0 then .error .noValidSource
    else .ok (r.1, r.2, frameRate)

/-! ### Undo-history snapshot equality (`timelineStore.ts`) -/

/-- The shape `partialize` (`timelineStore.ts`) keeps of one color region:
`{id, clipId, isProcessing}`. -/
structure RegionSnapshot where
  id : ℕ
  clipId : ℕ
  isProcessing : Bool
deriving DecidableEq, Repr

/-- A history snapshot as produced by `partialize` (`timelineStore.ts`). -/
structure HistorySnapshot where
  clips : List TimelineClip
  colorRegions : List RegionSnapshot
deriving DecidableEq, Repr

/-- `partialize` from `timelineStore.ts`: keeps the clips and strips every
color region down to `{id, clipId, isProcessing}` (dropping `frameMasks`,
`totalFrames` and `processedFrames`). -/
def partializeState (clips : List TimelineClip) (colorRegions : List ColorRegion) :
    HistorySnapshot :=
  { clips := clips,
    colorRegions := colorRegions.map (fun r =>
      { id := r.id, clipId := r.clipId, isProcessing := r.isProcessing }) }

/-- The pairwise-field loop of `shallowEqualColorRegions` (`timelineStore.ts`). -/
def regionsPairwiseEqual : List RegionSnapshot → List RegionSnapshot → Bool
  | [], [] => true
  | ra :: resta, rb :: restb =>
      if ra.id ≠ rb.id ∨ ra.clipId ≠ rb.clipId ∨ ra.isProcessing ≠ rb.isProcessing then false
      else regionsPairwiseEqual resta restb
  | _, _ => false

/-- `shallowEqualColorRegions` from `timelineStore.ts`: clips compared whole
(the source JSON-stringifies them), regions compared by length and the three
kept fields. -/
def shallowEqualColorRegions (a b : HistorySnapshot) : Bool :=
  if a.clips ≠ b.clips then false
  else if a.colorRegions.length ≠ b.colorRegions.length then false
  else regionsPairwiseEqual a.colorRegions b.colorRegions

/-! ## Helper lemmas -/

lemma getClipDuration_setPos (c : TimelineClip) (p : ℚ) :
    getClipDuration { c with timelinePositionSeconds := p } = getClipDuration c := rfl

lemma recalcFrom_get (l : List TimelineClip) : ∀ (p : ℚ) (i : ℕ)
    (h : i < (recalcFrom p l).length),
    ((recalcFrom p l).get ⟨i, h⟩).timelinePositionSeconds
      = p + ((((recalcFrom p l).take i).map getClipDuration).sum) := by
  induction l with
  | nil => intro p i h; simp [recalcFrom] at h
  | cons c rest ih =>
      intro p i h
      cases i with
      | zero => simp [recalcFrom]
      | succ j =>
          simp only [recalcFrom, List.get_cons_succ, List.take_succ_cons, List.map_cons,
            List.sum_cons, getClipDuration_setPos]
          rw [ih (p + getClipDuration c) j]
          ring

lemma contiguous_recalculatePositions (l : List TimelineClip) :
    Contiguous (recalculatePositions l) := by
  intro i h
  have := recalcFrom_get l 0 i h
  simpa [recalculatePositions] using this

lemma contiguous_nil : Contiguous [] := by
  intro i h
  simp at h

lemma applyOp_contiguous (getSource : ℕ → Option VideoSource) (s : EditorState)
    (op : EdlOp) (hs : Contiguous s.clips) : Contiguous (applyOp getSource s op).clips := by
  cases op with
  | add sourceId newId =>
      simp only [applyOp, addClip]
      split
      · exact hs
      · exact contiguous_recalculatePositions _
  | remove clipId => exact contiguous_recalculatePositions _
  | reorder activeId overId =>
      simp only [applyOp, reorderClips]
      split
      · exact hs
      · split
        · split
          · exact contiguous_recalculatePositions _
          · exact hs
        · exact hs
  | trimStart clipId v => exact contiguous_recalculatePositions _
  | trimEnd clipId v => exact contiguous_recalculatePositions _
  | split clipId t newId =>
      simp only [applyOp, splitClip]
      split
      · exact hs
      · split
        · exact hs
        · exact contiguous_recalculatePositions _
  | clear => exact contiguous_nil

/-! ## Claims -/

/-- C1: For every sequence of EDL mutations (addClip, removeClip,
reorderClips, splitClip, trimClipStart, trimClipEnd, clearClips) applied to
an initially empty clip list, the clips stay contiguous: for every index
`i`, `clips[i].timelinePositionSeconds` equals the sum over `j < i` of
`clips[j].sourceOutPointSeconds - clips[j].sourceInPointSeconds`. -/
theorem edl_mutations_keep_clips_contiguous (getSource : ℕ → Option VideoSource)
    (ops : List EdlOp) : Contiguous (applyOps getSource initialState ops).clips := by
  have key : ∀ (l : List EdlOp) (s : EditorState), Contiguous s.clips →
      Contiguous (applyOps getSource s l).clips := by
    intro l
    induction l with
    | nil => intro s hs; exact hs
    | cons o os ih =>
        intro s hs
        exact ih (applyOp getSource s o) (applyOp_contiguous getSource s o hs)
  exact key ops initialState contiguous_nil

/-- C4 counterexample: the claim says `seek` clamps the target time into
`[0, duration]`, but the playback store's `seek` only clamps below at 0.
With a single 10-second clip the timeline duration is 10, yet seeking to 11
leaves `currentTime` at 11, above the duration. -/
theorem seek_no_upper_clamp_cex :
    calculateTotalDuration [⟨1, 1, 0, 10, 0, ⟨0, 0⟩⟩] = 10 ∧
    (seek ⟨0, false⟩ 11).currentTime = 11 ∧
    ¬ (seek ⟨0, false⟩ 11).currentTime ≤ calculateTotalDuration [⟨1, 1, 0, 10, 0, ⟨0, 0⟩⟩] := by
  refine ⟨by norm_num [calculateTotalDuration, getClipDuration], by norm_num [seek], ?_⟩
  norm_num [calculateTotalDuration, getClipDuration, seek]

/-- C4 (amended): for every target time and playback state, `seek` sets
`isPlaying` to `false` and `currentTime` to `max 0 t` — clamped below at 0
but not clamped above by the timeline duration — and `seekRelative` likewise
for `currentTime + delta`. Both are total functions (they never throw). -/
theorem seek_pauses_and_clamps_below (s : PlaybackState) (t : ℚ) :
    seek s t = { currentTime := max 0 t, isPlaying := false } ∧
    seekRelative s t = { currentTime := max 0 (s.currentTime + t), isPlaying := false } :=
  ⟨rfl, rfl⟩

/-- `regionsPairwiseEqual` on stripped snapshots is exactly list equality. -/
lemma regionsPairwiseEqual_eq_true_iff :
    ∀ a b : List RegionSnapshot, regionsPairwiseEqual a b = true ↔ a = b := by
  intro a
  induction a with
  | nil =>
      intro b
      cases b <;> simp [regionsPairwiseEqual]
  | cons ra resta ih =>
      intro b
      cases b with
      | nil => simp [regionsPairwiseEqual]
      | cons rb restb =>
          simp only [regionsPairwiseEqual]
          split
          · rename_i hne
            constructor
            · intro h; simp at h
            · intro h
              simp only [List.cons.injEq] at h
              rcases hne with h' | h' | h' <;> exact absurd (by rw [h.1]) h'
          · rename_i hne
            push_neg at hne
            rw [ih restb]
            constructor
            · intro h
              have hra : ra = rb := by
                cases ra; cases rb; simp_all
              rw [hra, h]
            · intro h
              simp only [List.cons.injEq] at h
              exact h.2

/-- The stripped region snapshots are equal exactly when the regions agree
pairwise (and in number) on `id`, `clipId` and `isProcessing`. -/
lemma map_regionSnapshot_eq_iff (regionsA regionsB : List ColorRegion) :
    (partializeState [] regionsA).colorRegions = (partializeState [] regionsB).colorRegions ↔
      (regionsA.length = regionsB.length ∧
        ∀ (i : ℕ) (ha : i < regionsA.length) (hb : i < regionsB.length),
          (regionsA.get ⟨i, ha⟩).id = (regionsB.get ⟨i, hb⟩).id ∧
          (regionsA.get ⟨i, ha⟩).clipId = (regionsB.get ⟨i, hb⟩).clipId ∧
          (regionsA.get ⟨i, ha⟩).isProcessing = (regionsB.get ⟨i, hb⟩).isProcessing) := by
  induction regionsA generalizing regionsB with
  | nil =>
      cases regionsB <;> simp [partializeState]
  | cons ra resta ih =>
      cases regionsB with
      | nil => simp [partializeState]
      | cons rb restb =>
          simp only [partializeState, List.map_cons, List.cons.injEq, List.length_cons]
          rw [show ((resta.map fun r => RegionSnapshot.mk r.id r.clipId r.isProcessing)
                = (restb.map fun r => RegionSnapshot.mk r.id r.clipId r.isProcessing))
              = ((partializeState [] resta).colorRegions = (partializeState [] restb).colorRegions)
            from rfl]
          rw [ih restb]
          constructor
          · rintro ⟨hhd, hlen, hrest⟩
            injection hhd with h1 h2 h3
            refine ⟨by omega, ?_⟩
            intro i ha hb
            cases i with
            | zero => exact ⟨h1, h2, h3⟩
            | succ j => exact hrest j (by omega) (by omega)
          · rintro ⟨hlen, hall⟩
            have h0 := hall 0 (by omega) (by omega)
            refine ⟨?_, by omega, ?_⟩
            · rw [show ra.id = rb.id from h0.1,
                show ra.clipId = rb.clipId from h0.2.1,
                show ra.isProcessing = rb.isProcessing from h0.2.2]
            · intro j ha hb
              exact hall (j + 1) (by omega) (by omega)

/-- C9: the undo-history snapshot equality (`shallowEqualColorRegions` over
`partialize`d states) holds exactly when the clips are equal and the
color-region lists have the same length with pairwise equal `id`, `clipId`
and `isProcessing`, regardless of any difference in `frameMasks`,
`totalFrames` or `processedFrames` (which `partializeState` strips); so two
states differing only in per-pixel mask payloads always compare equal. -/
theorem snapshot_equality_ignores_masks (clipsA clipsB : List TimelineClip)
    (regionsA regionsB : List ColorRegion) :
    shallowEqualColorRegions (partializeState clipsA regionsA)
        (partializeState clipsB regionsB) = true ↔
      (clipsA = clipsB ∧
        regionsA.length = regionsB.length ∧
        ∀ (i : ℕ) (ha : i < regionsA.length) (hb : i < regionsB.length),
          (regionsA.get ⟨i, ha⟩).id = (regionsB.get ⟨i, hb⟩).id ∧
          (regionsA.get ⟨i, ha⟩).clipId = (regionsB.get ⟨i, hb⟩).clipId ∧
          (regionsA.get ⟨i, ha⟩).isProcessing = (regionsB.get ⟨i, hb⟩).isProcessing) := by
  simp only [shallowEqualColorRegions]
  split
  · rename_i hne
    simp only [partializeState] at hne
    constructor
    · intro h; exact absurd h (by simp)
    · rintro ⟨h, -⟩; exact absurd h hne
  · rename_i heq
    simp only [partializeState] at heq
    push_neg at heq
    split
    · rename_i hlen
      simp only [partializeState, List.length_map] at hlen
      constructor
      · intro h; exact absurd h (by simp)
      · rintro ⟨-, h, -⟩; exact absurd h hlen
    · rw [regionsPairwiseEqual_eq_true_iff]
      rw [show (partializeState clipsA regionsA).colorRegions
            = (partializeState [] regionsA).colorRegions from rfl,
          show (partializeState clipsB regionsB).colorRegions
            = (partializeState [] regionsB).colorRegions from rfl,
        map_regionSnapshot_eq_iff regionsA regionsB]
      simp [heq]

/-- `getMaskForTime` always finds a mask when the list is non-empty. -/
lemma getMaskForTime_isSome (fms : List FrameMask) (t : ℚ) (h : fms ≠ []) :
    ∃ fm, getMaskForTime fms t = some fm := by
  match fms with
  | [] => exact absurd rfl h
  | [fm] => exact ⟨fm, rfl⟩
  | fm0 :: fm1 :: rest => exact ⟨closestMaskGo t fm0 (fm0 :: fm1 :: rest), rfl⟩

/-- Regions with no frame masks are skipped by `getMaskForClip`. -/
lemma getMaskForClip_skip_empty (pre l : List ColorRegion) (t : ℚ)
    (h : ∀ p ∈ pre, p.frameMasks = []) :
    getMaskForClip (pre ++ l) t = getMaskForClip l t := by
  induction pre with
  | nil => rfl
  | cons p ps ih =>
      have hp : p.frameMasks = [] := h p (List.mem_cons_self p ps)
      have hps : ∀ q ∈ ps, q.frameMasks = [] := fun q hq => h q (List.mem_cons_of_mem p hq)
      simp [getMaskForClip, hp, ih hps]

/-- C2 counterexample: two regions of the same clip each have a mask at
source time 0 (simultaneous regions). The claim says the frame's mask is
their bitwise OR, but `getMaskForClip` returns the first region's mask
unchanged: for masks `[1,0]` and `[0,1]` the OR is `[1,1]`, yet the export
uses `[1,0]`. -/
theorem mask_or_not_used_cex :
    getMaskForClip
        [⟨1, 1, [⟨0, ⟨[1, 0], 2, 1⟩⟩], false, 1, 1⟩,
         ⟨2, 1, [⟨0, ⟨[0, 1], 2, 1⟩⟩], false, 1, 1⟩] 0 = some ⟨[1, 0], 2, 1⟩ ∧
    maskOr ⟨[1, 0], 2, 1⟩ ⟨[0, 1], 2, 1⟩ = ⟨[1, 1], 2, 1⟩ ∧
    (⟨[1, 0], 2, 1⟩ : MaskData) ≠ ⟨[1, 1], 2, 1⟩ := by
  refine ⟨?_, by decide, by decide⟩
  simp [getMaskForClip, getMaskForTime, closestMaskGo]

/-- C2 (amended): for the compositing of a frame during export, the mask used
is that of the *first* region in list order that has any frame masks — its
nearest-in-time mask, used unchanged; no bitwise OR combination across
simultaneous regions happens. For a single region that region's mask is used
unchanged; with zero regions (or none that has any frame mask) the lookup
yields null and the frame is rendered passthrough. -/
theorem mask_lookup_first_nonempty_region (pre rest : List ColorRegion) (r : ColorRegion)
    (t : ℚ) (hpre : ∀ p ∈ pre, p.frameMasks = []) (hr : r.frameMasks ≠ []) :
    getMaskForClip pre t = none ∧
    renderWithMask pre t = RenderAction.passthrough ∧
    ∃ fm, getMaskForTime r.frameMasks t = some fm ∧
      getMaskForClip (pre ++ r :: rest) t = some fm.mask ∧
      renderWithMask (pre ++ r :: rest) t = RenderAction.withMask fm.mask := by
  have hnone : getMaskForClip pre t = none := by
    have := getMaskForClip_skip_empty pre [] t hpre
    simpa [getMaskForClip] using this
  obtain ⟨fm, hfm⟩ := getMaskForTime_isSome r.frameMasks t hr
  have hfind : getMaskForClip (pre ++ r :: rest) t = some fm.mask := by
    rw [getMaskForClip_skip_empty pre (r :: rest) t hpre]
    simp [getMaskForClip, hr, hfm]
  refine ⟨hnone, ?_, fm, hfm, hfind, ?_⟩
  · simp [renderWithMask, hnone]
  · simp [renderWithMask, hfind]

/-- C2 witness input: one mask-less region followed by a region holding a
single mask. -/
theorem mask_lookup_witness :
    (∀ p ∈ [(⟨5, 1, [], true, 0, 0⟩ : ColorRegion)], p.frameMasks = []) ∧
    (⟨1, 1, [⟨2, ⟨[1], 1, 1⟩⟩], false, 1, 1⟩ : ColorRegion).frameMasks ≠ [] ∧
    (getMaskForClip [⟨5, 1, [], true, 0, 0⟩] 2 = none ∧
      renderWithMask [⟨5, 1, [], true, 0, 0⟩] 2 = RenderAction.passthrough ∧
      ∃ fm, getMaskForTime (⟨1, 1, [⟨2, ⟨[1], 1, 1⟩⟩], false, 1, 1⟩ : ColorRegion).frameMasks 2
          = some fm ∧
        getMaskForClip ([⟨5, 1, [], true, 0, 0⟩] ++
            (⟨1, 1, [⟨2, ⟨[1], 1, 1⟩⟩], false, 1, 1⟩ : ColorRegion) :: []) 2 = some fm.mask ∧
        renderWithMask ([⟨5, 1, [], true, 0, 0⟩] ++
            (⟨1, 1, [⟨2, ⟨[1], 1, 1⟩⟩], false, 1, 1⟩ : ColorRegion) :: []) 2
          = RenderAction.withMask fm.mask) :=
  ⟨by simp, by simp,
    mask_lookup_first_nonempty_region [⟨5, 1, [], true, 0, 0⟩] []
      ⟨1, 1, [⟨2, ⟨[1], 1, 1⟩⟩], false, 1, 1⟩ 2 (by simp) (by simp)⟩

/-- Threshold characterisation of the width maximum accumulated by
`resolutionStep`. -/
lemma resolutionStep_fst_le_iff (getSource : ℕ → Option VideoSource)
    (acc : ℕ × ℕ) (c : TimelineClip) (k : ℕ) :
    k ≤ (resolutionStep getSource acc c).1 ↔
      (k ≤ acc.1 ∨ ∃ src, getSource c.sourceId = some src ∧ ∃ w h,
        src.widthInPixels = some w ∧ src.heightInPixels = some h ∧
        w ≠ 0 ∧ h ≠ 0 ∧ k ≤ w) := by
  rcases hg : getSource c.sourceId with _ | src
  · simp [resolutionStep, hg]
  · rcases hw : src.widthInPixels with _ | w
    · simp [resolutionStep, hg, hw]
    · rcases hh : src.heightInPixels with _ | h
      · simp [resolutionStep, hg, hw, hh]
      · by_cases hz : w ≠ 0 ∧ h ≠ 0
        · simp only [resolutionStep, hg, hw, hh, if_pos hz]
          rw [le_max_iff]
          simp [hw, hh, hz.1, hz.2]
        · simp only [resolutionStep, hg, hw, hh, if_neg hz]
          rw [Decidable.not_and_iff_or_not] at hz
          constructor
          · intro h'; exact Or.inl h'
          · rintro (h' | ⟨src', hsrc', w', h', hw', hh', hwz, hhz, hk⟩)
            · exact h'
            · injection hsrc' with hsrc'
              subst hsrc'
              rw [hw] at hw'; rw [hh] at hh'
              injection hw' with hw'; injection hh' with hh'
              subst hw'; subst hh'
              rcases hz with hz | hz <;> simp_all

/-- Threshold characterisation of the height maximum accumulated by
`resolutionStep`. -/
lemma resolutionStep_snd_le_iff (getSource : ℕ → Option VideoSource)
    (acc : ℕ × ℕ) (c : TimelineClip) (k : ℕ) :
    k ≤ (resolutionStep getSource acc c).2 ↔
      (k ≤ acc.2 ∨ ∃ src, getSource c.sourceId = some src ∧ ∃ w h,
        src.widthInPixels = some w ∧ src.heightInPixels = some h ∧
        w ≠ 0 ∧ h ≠ 0 ∧ k ≤ h) := by
  rcases hg : getSource c.sourceId with _ | src
  · simp [resolutionStep, hg]
  · rcases hw : src.widthInPixels with _ | w
    · simp [resolutionStep, hg, hw]
    · rcases hh : src.heightInPixels with _ | h
      · simp [resolutionStep, hg, hw, hh]
      · by_cases hz : w ≠ 0 ∧ h ≠ 0
        · simp only [resolutionStep, hg, hw, hh, if_pos hz]
          rw [le_max_iff]
          simp [hw, hh, hz.1, hz.2]
        · simp only [resolutionStep, hg, hw, hh, if_neg hz]
          rw [Decidable.not_and_iff_or_not] at hz
          constructor
          · intro h'; exact Or.inl h'
          · rintro (h' | ⟨src', hsrc', w', h', hw', hh', hwz, hhz, hk⟩)
            · exact h'
            · injection hsrc' with hsrc'
              subst hsrc'
              rw [hw] at hw'; rw [hh] at hh'
              injection hw' with hw'; injection hh' with hh'
              subst hw'; subst hh'
              rcases hz with hz | hz <;> simp_all

/-- Threshold characterisation of the folded width maximum over a clip list. -/
lemma foldl_resolutionStep_fst_le_iff (getSource : ℕ → Option VideoSource)
    (clips : List TimelineClip) : ∀ (acc : ℕ × ℕ) (k : ℕ),
    k ≤ (clips.foldl (resolutionStep getSource) acc).1 ↔
      (k ≤ acc.1 ∨ ∃ c ∈ clips, ∃ src, getSource c.sourceId = some src ∧ ∃ w h,
        src.widthInPixels = some w ∧ src.heightInPixels = some h ∧
        w ≠ 0 ∧ h ≠ 0 ∧ k ≤ w) := by
  induction clips with
  | nil => intro acc k; simp
  | cons c cs ih =>
      intro acc k
      rw [List.foldl_cons, ih, resolutionStep_fst_le_iff]
      simp only [List.mem_cons]
      constructor
      · rintro ((h | h) | h)
        · exact Or.inl h
        · exact Or.inr ⟨c, Or.inl rfl, h⟩
        · obtain ⟨c', hc', h⟩ := h
          exact Or.inr ⟨c', Or.inr hc', h⟩
      · rintro (h | ⟨c', hc' | hc', h⟩)
        · exact Or.inl (Or.inl h)
        · subst hc'; exact Or.inl (Or.inr h)
        · exact Or.inr ⟨c', hc', h⟩

/-- Threshold characterisation of the folded height maximum over a clip list. -/
lemma foldl_resolutionStep_snd_le_iff (getSource : ℕ → Option VideoSource)
    (clips : List TimelineClip) : ∀ (acc : ℕ × ℕ) (k : ℕ),
    k ≤ (clips.foldl (resolutionStep getSource) acc).2 ↔
      (k ≤ acc.2 ∨ ∃ c ∈ clips, ∃ src, getSource c.sourceId = some src ∧ ∃ w h,
        src.widthInPixels = some w ∧ src.heightInPixels = some h ∧
        w ≠ 0 ∧ h ≠ 0 ∧ k ≤ h) := by
  induction clips with
  | nil => intro acc k; simp
  | cons c cs ih =>
      intro acc k
      rw [List.foldl_cons, ih, resolutionStep_snd_le_iff]
      simp only [List.mem_cons]
      constructor
      · rintro ((h | h) | h)
        · exact Or.inl h
        · exact Or.inr ⟨c, Or.inl rfl, h⟩
        · obtain ⟨c', hc', h⟩ := h
          exact Or.inr ⟨c', Or.inr hc', h⟩
      · rintro (h | ⟨c', hc' | hc', h⟩)
        · exact Or.inl (Or.inl h)
        · subst hc'; exact Or.inl (Or.inr h)
        · exact Or.inr ⟨c', hc', h⟩

/-- Rounding down to an even number hits zero exactly below 2. -/
lemma div2_mul2_eq_zero_iff (n : ℕ) : n / 2 * 2 = 0 ↔ n < 2 := by omega

/-- C8 counterexample: the claim says the no-valid-source error occurs iff no
referenced source has non-zero width and height. A source of width 1 and
height 1 has non-zero dimensions, yet the even-rounding
(`Math.floor(x / 2) * 2`) reduces them to 0×0 and `exportVideo` throws the
no-valid-source error anyway. -/
theorem export_validation_rounds_down_cex :
    exportVideoPre [⟨1, 7, 0, 10, 0, ⟨0, 0⟩⟩]
        (fun j => if j = 7 then some ⟨7, 10, some 1, some 1, 30⟩ else none) =
      .error .noValidSource ∧
    (fun j => if j = 7 then some (⟨7, 10, some 1, some 1, 30⟩ : VideoSource) else none)
        (⟨1, 7, 0, 10, 0, ⟨0, 0⟩⟩ : TimelineClip).sourceId =
      some ⟨7, 10, some 1, some 1, 30⟩ ∧
    (⟨7, 10, some 1, some 1, 30⟩ : VideoSource).widthInPixels = some 1 ∧
    (⟨7, 10, some 1, some 1, 30⟩ : VideoSource).heightInPixels = some 1 ∧
    (1 : ℕ) ≠ 0 := by
  refine ⟨?_, rfl, rfl, rfl, by decide⟩
  simp [exportVideoPre, getOutputResolution, resolutionStep]

/-- C8 (amended): `exportVideo` throws the no-clips error iff the clip list
is empty, and (for a non-empty list) throws the no-valid-source error iff,
after each output dimension is rounded down to an even number, the output
resolution is zero — i.e. iff no referenced source with both dimensions
known and non-zero has width ≥ 2, or none has height ≥ 2. Both checks run in
`exportVideoPre`, the synchronous prefix of `exportVideo` that precedes
`setupExportResources`, so they fail before any decoder, renderer or
recorder resource is acquired. -/
theorem export_precondition_errors (clips : List TimelineClip)
    (getSource : ℕ → Option VideoSource) :
    (exportVideoPre clips getSource = .error .noClips ↔ clips = []) ∧
    (exportVideoPre clips getSource = .error .noValidSource ↔
      (clips ≠ [] ∧
        (¬ (∃ c ∈ clips, ∃ src, getSource c.sourceId = some src ∧ ∃ w h,
              src.widthInPixels = some w ∧ src.heightInPixels = some h ∧
              w ≠ 0 ∧ h ≠ 0 ∧ 2 ≤ w) ∨
         ¬ (∃ c ∈ clips, ∃ src, getSource c.sourceId = some src ∧ ∃ w h,
              src.widthInPixels = some w ∧ src.heightInPixels = some h ∧
              w ≠ 0 ∧ h ≠ 0 ∧ 2 ≤ h)))) := by
  by_cases hnil : clips = []
  · subst hnil
    exact ⟨by simp [exportVideoPre], by simp [exportVideoPre]⟩
  · have hlen : ¬ clips.length = 0 := by
      simpa [List.length_eq_zero] using hnil
    have hw2 : 2 ≤ (clips.foldl (resolutionStep getSource) (0, 0)).1 ↔
        (∃ c ∈ clips, ∃ src, getSource c.sourceId = some src ∧ ∃ w h,
          src.widthInPixels = some w ∧ src.heightInPixels = some h ∧
          w ≠ 0 ∧ h ≠ 0 ∧ 2 ≤ w) := by
      rw [foldl_resolutionStep_fst_le_iff]
      simp
    have hh2 : 2 ≤ (clips.foldl (resolutionStep getSource) (0, 0)).2 ↔
        (∃ c ∈ clips, ∃ src, getSource c.sourceId = some src ∧ ∃ w h,
          src.widthInPixels = some w ∧ src.heightInPixels = some h ∧
          w ≠ 0 ∧ h ≠ 0 ∧ 2 ≤ h) := by
      rw [foldl_resolutionStep_snd_le_iff]
      simp
    have hchar1 : (getOutputResolution clips getSource).1 = 0 ↔
        ¬ (∃ c ∈ clips, ∃ src, getSource c.sourceId = some src ∧ ∃ w h,
            src.widthInPixels = some w ∧ src.heightInPixels = some h ∧
            w ≠ 0 ∧ h ≠ 0 ∧ 2 ≤ w) := by
      rw [show (getOutputResolution clips getSource).1
            = (clips.foldl (resolutionStep getSource) (0, 0)).1 / 2 * 2 from rfl,
        div2_mul2_eq_zero_iff, ← not_le, hw2]
    have hchar2 : (getOutputResolution clips getSource).2 = 0 ↔
        ¬ (∃ c ∈ clips, ∃ src, getSource c.sourceId = some src ∧ ∃ w h,
            src.widthInPixels = some w ∧ src.heightInPixels = some h ∧
            w ≠ 0 ∧ h ≠ 0 ∧ 2 ≤ h) := by
      rw [show (getOutputResolution clips getSource).2
            = (clips.foldl (resolutionStep getSource) (0, 0)).2 / 2 * 2 from rfl,
        div2_mul2_eq_zero_iff, ← not_le, hh2]
    constructor
    · simp only [exportVideoPre, if_neg hlen]
      split
      · simp [hnil]
      · simp [hnil]
    · simp only [exportVideoPre, if_neg hlen]
      split
      · rename_i hcond
        refine iff_of_true rfl ⟨hnil, ?_⟩
        rcases hcond with h | h
        · exact Or.inl (hchar1.mp h)
        · exact Or.inr (hchar2.mp h)
      · rename_i hcond
        push_neg at hcond
        refine iff_of_false (by simp) ?_
        rintro ⟨-, h | h⟩
        · exact absurd (hchar1.mpr h) hcond.1
        · exact absurd (hchar2.mpr h) hcond.2

/-- C6: for every clip satisfying the data-model invariants (in-point ≥ 0,
out-point within the source, non-negative trim memory, duration ≥ 0.1) and
every requested trim point, the clamped start trim and end trim both keep
`sourceOutPointSeconds - sourceInPointSeconds ≥ 0.1`; moreover
`clampTrimStart` lands in `[0, outPoint - 0.1]` and `clampTrimEnd` lands in
`[inPoint + 0.1, sourceDuration]`. -/
theorem trim_clamps_preserve_min_duration (clip : TimelineClip)
    (newIn newOut sourceDuration : ℚ)
    (hin : 0 ≤ clip.sourceInPointSeconds)
    (hout : clip.sourceOutPointSeconds ≤ sourceDuration)
    (hts : 0 ≤ clip.trimmed.startSeconds)
    (hte : 0 ≤ clip.trimmed.endSeconds)
    (hdur : 1/10 ≤ getClipDuration clip) :
    1/10 ≤ getClipDuration (trimStartClip clip newIn) ∧
    1/10 ≤ getClipDuration (trimEndClip clip newOut sourceDuration) ∧
    0 ≤ clampTrimStart clip newIn ∧
    clampTrimStart clip newIn ≤ clip.sourceOutPointSeconds - 1/10 ∧
    clip.sourceInPointSeconds + 1/10 ≤ clampTrimEnd clip newOut sourceDuration ∧
    clampTrimEnd clip newOut sourceDuration ≤ sourceDuration := by
  rw [getClipDuration] at hdur
  have h1 : clip.sourceInPointSeconds ≤ clip.sourceOutPointSeconds - 1/10 := by linarith
  have h0 : (0:ℚ) ≤ clip.sourceOutPointSeconds - 1/10 := le_trans hin h1
  have hD : clampTrimStart clip newIn ≤ clip.sourceOutPointSeconds - 1/10 :=
    max_le h0 (min_le_right _ _)
  have hE : clip.sourceInPointSeconds + 1/10 ≤ clampTrimEnd clip newOut sourceDuration :=
    le_min (by linarith) (le_max_right _ _)
  refine ⟨?_, ?_, le_max_left 0 _, hD, hE, min_le_left _ _⟩
  · simp only [trimStartClip]
    split
    · rw [getClipDuration]; exact hdur
    · simp only [getClipDuration]
      have hfin : max (clip.sourceInPointSeconds - clip.trimmed.startSeconds)
          (clampTrimStart clip newIn) ≤ clip.sourceOutPointSeconds - 1/10 :=
        max_le (by linarith) hD
      linarith [hfin]
  · simp only [trimEndClip]
    split
    · rw [getClipDuration]; exact hdur
    · simp only [getClipDuration]
      have hfin : clip.sourceInPointSeconds + 1/10 ≤
          min (clip.sourceOutPointSeconds + clip.trimmed.endSeconds)
            (clampTrimEnd clip newOut sourceDuration) :=
        le_min (by linarith) hE
      linarith [hfin]

/-- C6 witness: a concrete clip with trim memory, an aggressive start trim
request and an aggressive end trim request. -/
theorem trim_clamps_witness :
    1/10 ≤ getClipDuration (trimStartClip ⟨1, 1, 2, 5, 0, ⟨1, 1⟩⟩ 100) ∧
    1/10 ≤ getClipDuration (trimEndClip ⟨1, 1, 2, 5, 0, ⟨1, 1⟩⟩ (-3) 6) ∧
    0 ≤ clampTrimStart ⟨1, 1, 2, 5, 0, ⟨1, 1⟩⟩ 100 ∧
    clampTrimStart ⟨1, 1, 2, 5, 0, ⟨1, 1⟩⟩ 100 ≤
      (⟨1, 1, 2, 5, 0, ⟨1, 1⟩⟩ : TimelineClip).sourceOutPointSeconds - 1/10 ∧
    (⟨1, 1, 2, 5, 0, ⟨1, 1⟩⟩ : TimelineClip).sourceInPointSeconds + 1/10 ≤
      clampTrimEnd ⟨1, 1, 2, 5, 0, ⟨1, 1⟩⟩ (-3) 6 ∧
    clampTrimEnd ⟨1, 1, 2, 5, 0, ⟨1, 1⟩⟩ (-3) 6 ≤ 6 :=
  trim_clamps_preserve_min_duration ⟨1, 1, 2, 5, 0, ⟨1, 1⟩⟩ 100 (-3) 6
    (by norm_num) (by norm_num) (by norm_num) (by norm_num)
    (by norm_num [getClipDuration])

/-- C7: splitting exactly at a clip's timeline start or end (or anywhere
outside the open interval between them) leaves the editor state unchanged;
for a time strictly inside, the clip is replaced (and positions
recalculated) by two clips that split its source range at
`sourceInPointSeconds + (t - timelinePositionSeconds)`, the left keeping the
original start-trim memory and the right the original end-trim memory. -/
theorem splitClip_boundary_noop (newId : ℕ) (s : EditorState) (c : TimelineClip) (t : ℚ)
    (hfind : s.clips.find? (fun x => x.id == c.id) = some c) :
    ((t ≤ c.timelinePositionSeconds ∨ c.timelinePositionSeconds + getClipDuration c ≤ t) →
        splitClip newId s c.id t = s) ∧
    (c.timelinePositionSeconds < t → t < c.timelinePositionSeconds + getClipDuration c →
      createSplitClips newId c t =
        some ({ c with
                 sourceOutPointSeconds :=
                   c.sourceInPointSeconds + (t - c.timelinePositionSeconds),
                 trimmed := ⟨c.trimmed.startSeconds, 0⟩ },
              { c with
                 id := newId,
                 sourceInPointSeconds :=
                   c.sourceInPointSeconds + (t - c.timelinePositionSeconds),
                 timelinePositionSeconds := t,
                 trimmed := ⟨0, c.trimmed.endSeconds⟩ }) ∧
      (splitClip newId s c.id t).clips =
        recalculatePositions (s.clips.flatMap (fun x =>
          if x.id = c.id then
            [{ c with
                sourceOutPointSeconds :=
                  c.sourceInPointSeconds + (t - c.timelinePositionSeconds),
                trimmed := ⟨c.trimmed.startSeconds, 0⟩ },
             { c with
                id := newId,
                sourceInPointSeconds :=
                  c.sourceInPointSeconds + (t - c.timelinePositionSeconds),
                timelinePositionSeconds := t,
                trimmed := ⟨0, c.trimmed.endSeconds⟩ }]
          else [x]))) := by
  constructor
  · intro hb
    have hnone : createSplitClips newId c t = none := by
      simp only [createSplitClips]
      rw [if_pos]
      exact hb
    simp [splitClip, hfind, hnone]
  · intro h1 h2
    have hcond : ¬ (t ≤ c.timelinePositionSeconds ∨
        t ≥ c.timelinePositionSeconds + getClipDuration c) := by
      push_neg
      exact ⟨h1, h2⟩
    have hsome : createSplitClips newId c t =
        some ({ c with
                 sourceOutPointSeconds :=
                   c.sourceInPointSeconds + (t - c.timelinePositionSeconds),
                 trimmed := ⟨c.trimmed.startSeconds, 0⟩ },
              { c with
                 id := newId,
                 sourceInPointSeconds :=
                   c.sourceInPointSeconds + (t - c.timelinePositionSeconds),
                 timelinePositionSeconds := t,
                 trimmed := ⟨0, c.trimmed.endSeconds⟩ }) := by
      simp only [createSplitClips, if_neg hcond]
    exact ⟨hsome, by simp [splitClip, hfind, hsome]⟩

/-- C7 witness: a 10-second clip at timeline `[0, 10]`, with the interior
split time 4. -/
theorem splitClip_boundary_witness :
    ([⟨1, 1, 0, 10, 0, ⟨0, 0⟩⟩] :
        List TimelineClip).find? (fun x => x.id == 1) = some ⟨1, 1, 0, 10, 0, ⟨0, 0⟩⟩ ∧
    (((4:ℚ) ≤ (0:ℚ) ∨ (0:ℚ) + getClipDuration ⟨1, 1, 0, 10, 0, ⟨0, 0⟩⟩ ≤ 4) →
        splitClip 9 ⟨[⟨1, 1, 0, 10, 0, ⟨0, 0⟩⟩], none, 0⟩ 1 4 =
          ⟨[⟨1, 1, 0, 10, 0, ⟨0, 0⟩⟩], none, 0⟩) ∧
    ((0:ℚ) < 4 → (4:ℚ) < 0 + getClipDuration ⟨1, 1, 0, 10, 0, ⟨0, 0⟩⟩ →
      createSplitClips 9 ⟨1, 1, 0, 10, 0, ⟨0, 0⟩⟩ 4 =
        some ({ (⟨1, 1, 0, 10, 0, ⟨0, 0⟩⟩ : TimelineClip) with
                 sourceOutPointSeconds := 0 + (4 - 0),
                 trimmed := ⟨0, 0⟩ },
              { (⟨1, 1, 0, 10, 0, ⟨0, 0⟩⟩ : TimelineClip) with
                 id := 9,
                 sourceInPointSeconds := 0 + (4 - 0),
                 timelinePositionSeconds := 4,
                 trimmed := ⟨0, 0⟩ }) ∧
      (splitClip 9 ⟨[⟨1, 1, 0, 10, 0, ⟨0, 0⟩⟩], none, 0⟩ 1 4).clips =
        recalculatePositions
          (([⟨1, 1, 0, 10, 0, ⟨0, 0⟩⟩] : List TimelineClip).flatMap (fun x =>
            if x.id = 1 then
              [{ (⟨1, 1, 0, 10, 0, ⟨0, 0⟩⟩ : TimelineClip) with
                  sourceOutPointSeconds := 0 + (4 - 0),
                  trimmed := ⟨0, 0⟩ },
               { (⟨1, 1, 0, 10, 0, ⟨0, 0⟩⟩ : TimelineClip) with
                  id := 9,
                  sourceInPointSeconds := 0 + (4 - 0),
                  timelinePositionSeconds := 4,
                  trimmed := ⟨0, 0⟩ }]
            else [x]))) :=
  ⟨rfl, (splitClip_boundary_noop 9 ⟨[⟨1, 1, 0, 10, 0, ⟨0, 0⟩⟩], none, 0⟩
      ⟨1, 1, 0, 10, 0, ⟨0, 0⟩⟩ 4 rfl).1,
    (splitClip_boundary_noop 9 ⟨[⟨1, 1, 0, 10, 0, ⟨0, 0⟩⟩], none, 0⟩
      ⟨1, 1, 0, 10, 0, ⟨0, 0⟩⟩ 4 rfl).2⟩

/-- Folding timeline-duration addition from any accumulator. -/
lemma foldl_duration_eq (l : List TimelineClip) : ∀ a : ℚ,
    l.foldl (fun total clip => total + getClipDuration clip) a
      = a + (l.map getClipDuration).sum := by
  induction l with
  | nil => intro a; simp
  | cons c cs ih =>
      intro a
      rw [List.foldl_cons, ih]
      simp [List.map_cons, List.sum_cons]
      ring

/-- `calculateTotalDuration` is the sum of the clip durations. -/
lemma calculateTotalDuration_eq_sum (l : List TimelineClip) :
    calculateTotalDuration l = (l.map getClipDuration).sum := by
  rw [calculateTotalDuration, foldl_duration_eq]
  ring

/-- Recomputing positions does not change any clip's duration. -/
lemma recalcFrom_map_duration (l : List TimelineClip) : ∀ p : ℚ,
    (recalcFrom p l).map getClipDuration = l.map getClipDuration := by
  induction l with
  | nil => intro p; rfl
  | cons c cs ih =>
      intro p
      simp [recalcFrom, getClipDuration_setPos, ih]

/-- Recomputing positions does not change the total duration. -/
lemma calculateTotalDuration_recalc (l : List TimelineClip) :
    calculateTotalDuration (recalculatePositions l) = calculateTotalDuration l := by
  rw [calculateTotalDuration_eq_sum, calculateTotalDuration_eq_sum,
    recalculatePositions, recalcFrom_map_duration]

/-- Under id-uniqueness, the clip that `find?` locates is the only one with
its id. -/
lemma find?_id_unique (l : List TimelineClip) (k : ℕ) (c0 : TimelineClip)
    (hnd : (l.map TimelineClip.id).Nodup)
    (hf : l.find? (fun c => c.id == k) = some c0) :
    ∀ c ∈ l, c.id = k → c = c0 := by
  induction l with
  | nil => simp at hf
  | cons a rest ih =>
      rw [List.map_cons, List.nodup_cons] at hnd
      by_cases hpa : a.id = k
      · have : (a :: rest).find? (fun c => c.id == k) = some a := by
          simp [List.find?_cons, hpa]
        rw [this] at hf
        injection hf with hf
        subst hf
        intro c hc hck
        rcases List.mem_cons.mp hc with h | h
        · exact h
        · have hmem : c.id ∈ rest.map TimelineClip.id := List.mem_map_of_mem TimelineClip.id h
          exact absurd (by rw [hpa, ← hck]; exact hmem) hnd.1
  -- the a.id ≠ k case: find? skips the head
      · have : (a :: rest).find? (fun c => c.id == k) = rest.find? (fun c => c.id == k) := by
          simp [List.find?_cons, hpa]
        rw [this] at hf
        intro c hc hck
        rcases List.mem_cons.mp hc with h | h
        · exact absurd (h ▸ hck) hpa
        · exact ih hnd.2 hf c h hck

/-- Summing durations over a `flatMap`. -/
lemma sum_duration_flatMap (l : List TimelineClip) (φ : TimelineClip → List TimelineClip) :
    ((l.flatMap φ).map getClipDuration).sum
      = (l.map (fun c => (((φ c).map getClipDuration).sum))).sum := by
  induction l with
  | nil => rfl
  | cons c cs ih =>
      simp [List.flatMap_cons, List.map_append, List.sum_append, ih]

/-- `splitClip` never changes the total timeline duration (clip ids assumed
unique, as `generateId` guarantees in the source). -/
lemma splitClip_totalDuration (newId : ℕ) (s : EditorState) (clipId : ℕ) (t : ℚ)
    (hnd : (s.clips.map TimelineClip.id).Nodup) :
    calculateTotalDuration (splitClip newId s clipId t).clips
      = calculateTotalDuration s.clips := by
  rcases hf : s.clips.find? (fun c => c.id == clipId) with _ | clip
  · simp only [splitClip, hf]
  · rcases hsp : createSplitClips newId clip t with _ | ⟨f, sec⟩
    · simp only [splitClip, hf, hsp]
    · have hsum : getClipDuration f + getClipDuration sec = getClipDuration clip := by
        simp only [createSplitClips] at hsp
        split at hsp
        · exact absurd hsp (by simp)
        · rw [Option.some.injEq, Prod.mk.injEq] at hsp
          obtain ⟨hf', hs'⟩ := hsp
          rw [← hf', ← hs']
          simp [getClipDuration]
          ring
      simp only [splitClip, hf, hsp]
      rw [calculateTotalDuration_recalc, calculateTotalDuration_eq_sum,
        calculateTotalDuration_eq_sum, sum_duration_flatMap]
      congr 1
      apply List.map_congr_left
      intro c hc
      by_cases hcid : c.id = clipId
      · have hc0 : c = clip := find?_id_unique s.clips clipId clip hnd hf c hc hcid
        subst hc0
        simp [hcid, ← hsum]
      · simp [hcid]

/-- C10: for every clip and every split time strictly inside its timeline
span, the two clips produced by `createSplitClips` have strictly positive
durations summing exactly to the original duration, both reference the
original `sourceId`, and the first clip's out-point equals the second's
in-point; and `calculateTotalDuration` (the value behind `getDuration()`) is
unchanged by any `splitClip` (on a state with unique clip ids). -/
theorem split_preserves_durations (newId : ℕ) (c : TimelineClip) (t : ℚ)
    (s : EditorState) (clipId nid : ℕ) (t2 : ℚ)
    (h1 : c.timelinePositionSeconds < t)
    (h2 : t < c.timelinePositionSeconds + getClipDuration c)
    (hnd : (s.clips.map TimelineClip.id).Nodup) :
    (∃ f sec, createSplitClips newId c t = some (f, sec) ∧
      0 < getClipDuration f ∧ 0 < getClipDuration sec ∧
      getClipDuration f + getClipDuration sec = getClipDuration c ∧
      f.sourceId = c.sourceId ∧ sec.sourceId = c.sourceId ∧
      f.sourceOutPointSeconds = sec.sourceInPointSeconds) ∧
    calculateTotalDuration (splitClip nid s clipId t2).clips
      = calculateTotalDuration s.clips := by
  refine ⟨?_, splitClip_totalDuration nid s clipId t2 hnd⟩
  have hcond : ¬ (t ≤ c.timelinePositionSeconds ∨
      t ≥ c.timelinePositionSeconds + getClipDuration c) := by
    push_neg
    exact ⟨h1, h2⟩
  refine ⟨{ c with
              sourceOutPointSeconds :=
                c.sourceInPointSeconds + (t - c.timelinePositionSeconds),
              trimmed := ⟨c.trimmed.startSeconds, 0⟩ },
          { c with
              id := newId,
              sourceInPointSeconds :=
                c.sourceInPointSeconds + (t - c.timelinePositionSeconds),
              timelinePositionSeconds := t,
              trimmed := ⟨0, c.trimmed.endSeconds⟩ },
          by simp only [createSplitClips, if_neg hcond], ?_, ?_, ?_, rfl, rfl, rfl⟩
  · simp only [getClipDuration]
    linarith
  · simp only [getClipDuration]
    simp only [getClipDuration] at h2
    linarith
  · simp only [getClipDuration]
    ring

/-- C10 witness: splitting a 10-second clip at t = 4 on a one-clip state. -/
theorem split_preserves_durations_witness :
    ((0:ℚ) < 4 ∧ (4:ℚ) < 0 + getClipDuration ⟨1, 1, 0, 10, 0, ⟨0, 0⟩⟩ ∧
      (([⟨1, 1, 0, 10, 0, ⟨0, 0⟩⟩] : List TimelineClip).map TimelineClip.id).Nodup) ∧
    ((∃ f sec, createSplitClips 9 ⟨1, 1, 0, 10, 0, ⟨0, 0⟩⟩ 4 = some (f, sec) ∧
        0 < getClipDuration f ∧ 0 < getClipDuration sec ∧
        getClipDuration f + getClipDuration sec = getClipDuration ⟨1, 1, 0, 10, 0, ⟨0, 0⟩⟩ ∧
        f.sourceId = (⟨1, 1, 0, 10, 0, ⟨0, 0⟩⟩ : TimelineClip).sourceId ∧
        sec.sourceId = (⟨1, 1, 0, 10, 0, ⟨0, 0⟩⟩ : TimelineClip).sourceId ∧
        f.sourceOutPointSeconds = sec.sourceInPointSeconds) ∧
      calculateTotalDuration (splitClip 8 ⟨[⟨1, 1, 0, 10, 0, ⟨0, 0⟩⟩], none, 0⟩ 1 4).clips
        = calculateTotalDuration [⟨1, 1, 0, 10, 0, ⟨0, 0⟩⟩]) :=
  ⟨⟨by norm_num, by norm_num [getClipDuration], by simp⟩,
    split_preserves_durations 9 ⟨1, 1, 0, 10, 0, ⟨0, 0⟩⟩ 4
      ⟨[⟨1, 1, 0, 10, 0, ⟨0, 0⟩⟩], none, 0⟩ 1 8 4
      (by norm_num) (by norm_num [getClipDuration]) (by simp)⟩

/-- C5 counterexample: trimming the start of a 10-second clip by 1/2000 s
while the playhead sits at 5 s. The viewed source time 5 is still inside the
new bounds `[1/2000, 10]`, so the claim says the playhead moves to
`0 + (5 - 1/2000)`; but the code only re-anchors when the difference exceeds
0.001 s, and here it is 1/2000 ≤ 1/1000, so the playhead stays at 5. -/
theorem trim_playhead_deadband_cex :
    (trimClipStart ⟨[⟨1, 1, 0, 10, 0, ⟨0, 0⟩⟩], none, 5⟩ 1 (1/2000)).currentTime = 5 ∧
    (trimClipStart ⟨[⟨1, 1, 0, 10, 0, ⟨0, 0⟩⟩], none, 5⟩ 1 (1/2000)).clips.find?
        (fun c => c.id == 1) = some ⟨1, 1, 1/2000, 10, 0, ⟨1/2000, 0⟩⟩ ∧
    getSourceTimeForPlayhead ⟨1, 1, 0, 10, 0, ⟨0, 0⟩⟩ 5 = some 5 ∧
    ((1:ℚ)/2000 ≤ 5 ∧ (5:ℚ) ≤ 10) ∧
    (0 : ℚ) + ((5:ℚ) - 1/2000) ≠ 5 := by
  refine ⟨?_, ?_, ?_, by norm_num, by norm_num⟩
  · simp only [trimClipStart, recalculatePositions, recalcFrom, trimStartClip,
      clampTrimStart, adjustPlayheadForTrim, getSourceTimeForPlayhead, getClipDuration,
      setCurrentTime, List.map_cons, List.map_nil, List.find?]
    norm_num [abs_le]
  · simp only [trimClipStart, recalculatePositions, recalcFrom, trimStartClip,
      clampTrimStart, adjustPlayheadForTrim, getSourceTimeForPlayhead, getClipDuration,
      setCurrentTime, List.map_cons, List.map_nil, List.find?]
    norm_num [abs_le]
  · simp only [getSourceTimeForPlayhead, getClipDuration]
    norm_num

/-- C5 (amended): after `trimClipStart`/`trimClipEnd` the playhead is
re-anchored by `adjustPlayheadForTrim` on the old and new clip lists. If the
playhead was not inside the trimmed clip's old span, it is unchanged. If the
source time it was viewing still lies in the new in/out bounds, the playhead
moves to the equivalent new timeline time *only when that differs from the
current time by more than 0.001 s*; within that dead band it is left
unchanged. If the source time fell below the new in-point the playhead is
set to the clip's new timeline start, and if it fell above the new
out-point, to the clip's new timeline end. -/
theorem trim_playhead_reanchoring (clipId : ℕ) (oldClips newClips : List TimelineClip)
    (ct : ℚ) (oldClip newClip : TimelineClip)
    (s : EditorState) (g : ℕ → Option VideoSource) (v : ℚ)
    (hold : oldClips.find? (fun c => c.id == clipId) = some oldClip)
    (hnew : newClips.find? (fun c => c.id == clipId) = some newClip)
    (hpos : 0 ≤ newClip.timelinePositionSeconds)
    (hdur : 0 ≤ getClipDuration newClip) :
    ((trimClipStart s clipId v).currentTime =
        adjustPlayheadForTrim clipId s.clips (trimClipStart s clipId v).clips
          s.currentTime) ∧
    ((trimClipEnd g s clipId v).currentTime =
        adjustPlayheadForTrim clipId s.clips (trimClipEnd g s clipId v).clips
          s.currentTime) ∧
    (getSourceTimeForPlayhead oldClip ct = none →
        adjustPlayheadForTrim clipId oldClips newClips ct = ct) ∧
    (∀ st, getSourceTimeForPlayhead oldClip ct = some st →
      (newClip.sourceInPointSeconds ≤ st ∧ st ≤ newClip.sourceOutPointSeconds →
        adjustPlayheadForTrim clipId oldClips newClips ct =
          (if 1/1000 < |newClip.timelinePositionSeconds +
              (st - newClip.sourceInPointSeconds) - ct|
           then newClip.timelinePositionSeconds + (st - newClip.sourceInPointSeconds)
           else ct)) ∧
      (st < newClip.sourceInPointSeconds →
        adjustPlayheadForTrim clipId oldClips newClips ct
          = newClip.timelinePositionSeconds) ∧
      (newClip.sourceOutPointSeconds < st →
        adjustPlayheadForTrim clipId oldClips newClips ct
          = newClip.timelinePositionSeconds + getClipDuration newClip)) := by
  refine ⟨rfl, rfl, ?_, ?_⟩
  · intro hnone
    simp only [adjustPlayheadForTrim, hold, hnew, hnone]
  · intro st hst
    simp only [adjustPlayheadForTrim, hold, hnew, hst]
    refine ⟨?_, ?_, ?_⟩
    · rintro ⟨hb1, hb2⟩
      rw [if_pos ⟨hb1, hb2⟩]
      split
      · rename_i hout
        exact max_eq_right (by linarith)
      · rfl
    · intro hb
      rw [if_neg (by rintro ⟨hb1, -⟩; linarith), if_pos hb]
      exact max_eq_right hpos
    · intro hb
      rw [if_neg (by rintro ⟨-, hb2⟩; linarith),
        if_neg (by rw [getClipDuration] at hdur; intro hlt; linarith)]
      exact max_eq_right (by linarith)

/-- C5 witness: the playhead at 5 s inside a clip trimmed so the viewed
source time stays in bounds but shifts by a full second. -/
theorem trim_playhead_reanchoring_witness :
    (([⟨1, 1, 0, 10, 0, ⟨0, 0⟩⟩] : List TimelineClip).find? (fun c => c.id == 1)
        = some ⟨1, 1, 0, 10, 0, ⟨0, 0⟩⟩ ∧
      ([⟨1, 1, 1, 10, 0, ⟨1, 0⟩⟩] : List TimelineClip).find? (fun c => c.id == 1)
        = some ⟨1, 1, 1, 10, 0, ⟨1, 0⟩⟩) ∧
    (∀ st, getSourceTimeForPlayhead (⟨1, 1, 0, 10, 0, ⟨0, 0⟩⟩ : TimelineClip) 5 = some st →
      ((⟨1, 1, 1, 10, 0, ⟨1, 0⟩⟩ : TimelineClip).sourceInPointSeconds ≤ st ∧
          st ≤ (⟨1, 1, 1, 10, 0, ⟨1, 0⟩⟩ : TimelineClip).sourceOutPointSeconds →
        adjustPlayheadForTrim 1 [⟨1, 1, 0, 10, 0, ⟨0, 0⟩⟩] [⟨1, 1, 1, 10, 0, ⟨1, 0⟩⟩] 5 =
          (if 1/1000 < |(⟨1, 1, 1, 10, 0, ⟨1, 0⟩⟩ : TimelineClip).timelinePositionSeconds +
              (st - (⟨1, 1, 1, 10, 0, ⟨1, 0⟩⟩ : TimelineClip).sourceInPointSeconds) - 5|
           then (⟨1, 1, 1, 10, 0, ⟨1, 0⟩⟩ : TimelineClip).timelinePositionSeconds +
              (st - (⟨1, 1, 1, 10, 0, ⟨1, 0⟩⟩ : TimelineClip).sourceInPointSeconds)
           else 5)) ∧
      (st < (⟨1, 1, 1, 10, 0, ⟨1, 0⟩⟩ : TimelineClip).sourceInPointSeconds →
        adjustPlayheadForTrim 1 [⟨1, 1, 0, 10, 0, ⟨0, 0⟩⟩] [⟨1, 1, 1, 10, 0, ⟨1, 0⟩⟩] 5
          = (⟨1, 1, 1, 10, 0, ⟨1, 0⟩⟩ : TimelineClip).timelinePositionSeconds) ∧
      ((⟨1, 1, 1, 10, 0, ⟨1, 0⟩⟩ : TimelineClip).sourceOutPointSeconds < st →
        adjustPlayheadForTrim 1 [⟨1, 1, 0, 10, 0, ⟨0, 0⟩⟩] [⟨1, 1, 1, 10, 0, ⟨1, 0⟩⟩] 5
          = (⟨1, 1, 1, 10, 0, ⟨1, 0⟩⟩ : TimelineClip).timelinePositionSeconds +
              getClipDuration ⟨1, 1, 1, 10, 0, ⟨1, 0⟩⟩)) :=
  ⟨⟨rfl, rfl⟩,
    (trim_playhead_reanchoring 1 [⟨1, 1, 0, 10, 0, ⟨0, 0⟩⟩] [⟨1, 1, 1, 10, 0, ⟨1, 0⟩⟩] 5
      ⟨1, 1, 0, 10, 0, ⟨0, 0⟩⟩ ⟨1, 1, 1, 10, 0, ⟨1, 0⟩⟩
      ⟨[], none, 0⟩ (fun _ => none) 0 rfl rfl (by norm_num)
      (by norm_num [getClipDuration])).2.2.2⟩

/-- On a contiguous suffix starting at `p`, the visual position of any time
`t ≥ p` is at least `(p + voff) * pps`. -/
lemma playheadVisualGo_ge : ∀ (clips : List TimelineClip) (p voff t pps : ℚ),
    clips ≠ [] → ContiguousFrom p clips →
    (∀ c ∈ clips, 0 < getClipDuration c ∧ 0 ≤ c.trimmed.startSeconds ∧
      0 ≤ c.trimmed.endSeconds) →
    p ≤ t → 0 < pps →
    (p + voff) * pps ≤ playheadVisualGo t pps voff clips := by
  intro clips
  induction clips with
  | nil => intro p voff t pps hne; exact absurd rfl hne
  | cons c rest ih =>
      intro p voff t pps _ hcont hmem ht hpps
      obtain ⟨hcpos, hcrest⟩ := hcont
      obtain ⟨hdurc, htsc, htec⟩ := hmem c (List.mem_cons_self c rest)
      have hmem' : ∀ x ∈ rest, 0 < getClipDuration x ∧ 0 ≤ x.trimmed.startSeconds ∧
          0 ≤ x.trimmed.endSeconds := fun x hx => hmem x (List.mem_cons_of_mem c hx)
      simp only [playheadVisualGo]
      split
      · rename_i hge
        split
        · exact mul_le_mul_of_nonneg_right (by rw [hcpos]; linarith) hpps.le
        · rename_i hrne
          calc (p + voff) * pps
              ≤ ((p + getClipDuration c) +
                  (voff + c.trimmed.startSeconds + c.trimmed.endSeconds)) * pps :=
                mul_le_mul_of_nonneg_right (by linarith) hpps.le
            _ ≤ _ := ih (p + getClipDuration c)
                  (voff + c.trimmed.startSeconds + c.trimmed.endSeconds) t pps hrne
                  hcrest hmem' (by rw [hcpos] at hge; linarith) hpps
      · split
        · exact mul_le_mul_of_nonneg_right (by linarith) hpps.le
        · rename_i h2
          exact absurd (show t ≥ c.timelinePositionSeconds by rw [hcpos]; exact ht) h2

/-- The inverse walk undoes the forward walk on any contiguous suffix:
with matching accumulators (`accV = p + voff`), mapping `t ∈ [p, p + total]`
to pixels and back yields `t` again. -/
lemma timelineTimeGo_inverts : ∀ (clips orig : List TimelineClip)
    (p voff accT t pps : ℚ) (lst : TimelineClip),
    clips ≠ [] → ContiguousFrom p clips →
    (∀ c ∈ clips, 0 < getClipDuration c ∧ 0 ≤ c.trimmed.startSeconds ∧
      0 ≤ c.trimmed.endSeconds) →
    p ≤ t → t ≤ p + (clips.map getClipDuration).sum →
    0 < pps →
    clips.getLast? = some lst → orig.getLast? = some lst →
    timelineTimeGo (playheadVisualGo t pps voff clips / pps) orig (p + voff) accT clips
      = t := by
  intro clips
  induction clips with
  | nil => intro orig p voff accT t pps lst hne; exact absurd rfl hne
  | cons c rest ih =>
      intro orig p voff accT t pps lst _ hcont hmem ht0 ht1 hpps hlast horig
      obtain ⟨hcpos, hcrest⟩ := hcont
      obtain ⟨hdurc, htsc, htec⟩ := hmem c (List.mem_cons_self c rest)
      have hmem' : ∀ x ∈ rest, 0 < getClipDuration x ∧ 0 ≤ x.trimmed.startSeconds ∧
          0 ≤ x.trimmed.endSeconds := fun x hx => hmem x (List.mem_cons_of_mem c hx)
      rw [List.map_cons, List.sum_cons] at ht1
      by_cases hrest : rest = []
      · subst hrest
        have hlst : c = lst := by
          rw [show ([c] : List TimelineClip).getLast? = some c from rfl] at hlast
          injection hlast
        simp only [List.map_nil, List.sum_nil, add_zero] at ht1
        simp only [playheadVisualGo]
        by_cases hge : t ≥ c.timelinePositionSeconds + getClipDuration c
        · have hteq : t = p + getClipDuration c := by
            rw [hcpos] at hge; linarith
          rw [if_pos hge, if_pos trivial, mul_div_cancel_right₀ _ (ne_of_gt hpps)]
          simp only [timelineTimeGo]
          split
          · linarith
          · split
            · linarith
            · split
              · linarith
              · simp only [timelineTimeGo, horig, ← hlst]
                linarith
      -- below the clip end: the playhead is inside this (single) clip
        · rw [if_neg hge, if_pos (show t ≥ c.timelinePositionSeconds from by
            rw [hcpos]; exact ht0), mul_div_cancel_right₀ _ (ne_of_gt hpps)]
          simp only [timelineTimeGo]
          push_neg at hge
          split
          · rename_i hlt
            linarith
          · split
            · linarith
            · rename_i h2
              exact absurd (by linarith) h2
      · have hlast' : rest.getLast? = some lst := by
          cases rest with
          | nil => exact absurd rfl hrest
          | cons r rs => rw [← hlast]; rfl
        by_cases hge : t ≥ c.timelinePositionSeconds + getClipDuration c
        · simp only [playheadVisualGo]
          rw [if_pos hge, if_neg hrest]
          have hkey := ih orig (p + getClipDuration c)
            (voff + c.trimmed.startSeconds + c.trimmed.endSeconds)
            (accT + c.trimmed.startSeconds + c.trimmed.endSeconds) t pps lst hrest
            hcrest hmem' (by rw [hcpos] at hge; linarith) (by linarith) hpps hlast' horig
          have hge2 : (p + getClipDuration c) +
              (voff + c.trimmed.startSeconds + c.trimmed.endSeconds) ≤
              playheadVisualGo t pps
                (voff + c.trimmed.startSeconds + c.trimmed.endSeconds) rest / pps := by
            rw [le_div_iff₀ hpps]
            exact playheadVisualGo_ge rest (p + getClipDuration c)
              (voff + c.trimmed.startSeconds + c.trimmed.endSeconds) t pps hrest hcrest
              hmem' (by rw [hcpos] at hge; linarith) hpps
          simp only [timelineTimeGo]
          split
          · rename_i hlt
            linarith
          · split
            · rename_i hlt
              linarith
            · split
              · rename_i hlt
                linarith
              · convert hkey using 2
                ring
        · simp only [playheadVisualGo]
          rw [if_neg hge, if_pos (show t ≥ c.timelinePositionSeconds from by
            rw [hcpos]; exact ht0), mul_div_cancel_right₀ _ (ne_of_gt hpps)]
          simp only [timelineTimeGo]
          push_neg at hge
          split
          · linarith
          · split
            · linarith
            · rename_i h2
              exact absurd (by linarith) h2

/-- C3: for every contiguous clip list (including clips with non-zero
trim memory), every `pixelsPerSecond > 0` and every timeline time `t` in
`[0, total duration]`, converting the playhead's visual pixel position back
to timeline time recovers `t` exactly:
`calculateTimelineTimeFromVisualPosition` inverts
`calculatePlayheadVisualPosition` (round-trip law). -/
theorem playhead_visual_roundtrip (clips : List TimelineClip) (pps t : ℚ)
    (hpps : 0 < pps)
    (hcont : ContiguousFrom 0 clips)
    (hmem : ∀ c ∈ clips, 0 < getClipDuration c ∧ 0 ≤ c.trimmed.startSeconds ∧
      0 ≤ c.trimmed.endSeconds)
    (ht0 : 0 ≤ t) (ht1 : t ≤ calculateTotalDuration clips) :
    calculateTimelineTimeFromVisualPosition
      (calculatePlayheadVisualPosition t clips pps) clips pps = t := by
  by_cases hnil : clips = []
  · subst hnil
    simp only [calculatePlayheadVisualPosition, calculateTimelineTimeFromVisualPosition,
      true_or, if_true]
    exact mul_div_cancel_right₀ t (ne_of_gt hpps)
  · have hsome : clips.getLast?.isSome := by
      rw [List.getLast?_isSome]
      exact hnil
    obtain ⟨lst, hlst⟩ := Option.isSome_iff_exists.mp hsome
    simp only [calculatePlayheadVisualPosition, calculateTimelineTimeFromVisualPosition]
    rw [if_neg hnil, if_neg (by push_neg; exact ⟨hnil, ne_of_gt hpps⟩)]
    have hkey := timelineTimeGo_inverts clips clips 0 0 0 t pps lst hnil hcont hmem ht0
      (by rw [calculateTotalDuration_eq_sum] at ht1; linarith) hpps hlst hlst
    rw [show (0:ℚ) + 0 = 0 from by ring] at hkey
    exact hkey

/-- C3 witness: two trimmed clips (`[2,5]` of source 1 with trim memory
`⟨2,1⟩`, then `[0,4]` of source 2 with trim memory `⟨0,2⟩`), 50 px/s, t = 4 s. -/
theorem playhead_visual_roundtrip_witness :
    ((0:ℚ) < 50 ∧ ContiguousFrom 0 [⟨1, 1, 2, 5, 0, ⟨2, 1⟩⟩, ⟨2, 2, 0, 4, 3, ⟨0, 2⟩⟩] ∧
      (0:ℚ) ≤ 4 ∧
      (4:ℚ) ≤ calculateTotalDuration [⟨1, 1, 2, 5, 0, ⟨2, 1⟩⟩, ⟨2, 2, 0, 4, 3, ⟨0, 2⟩⟩]) ∧
    calculateTimelineTimeFromVisualPosition
      (calculatePlayheadVisualPosition 4 [⟨1, 1, 2, 5, 0, ⟨2, 1⟩⟩, ⟨2, 2, 0, 4, 3, ⟨0, 2⟩⟩] 50)
      [⟨1, 1, 2, 5, 0, ⟨2, 1⟩⟩, ⟨2, 2, 0, 4, 3, ⟨0, 2⟩⟩] 50 = 4 :=
  ⟨⟨by norm_num, by norm_num [ContiguousFrom, getClipDuration], by norm_num,
      by norm_num [calculateTotalDuration_eq_sum, getClipDuration]⟩,
    playhead_visual_roundtrip [⟨1, 1, 2, 5, 0, ⟨2, 1⟩⟩, ⟨2, 2, 0, 4, 3, ⟨0, 2⟩⟩] 50 4
      (by norm_num) (by norm_num [ContiguousFrom, getClipDuration])
      (by
        simp only [List.mem_cons, List.not_mem_nil, or_false]
        rintro c (rfl | rfl) <;> norm_num [getClipDuration])
      (by norm_num)
      (by norm_num [calculateTotalDuration_eq_sum, getClipDuration])⟩

end VideoEditor
